import Mathlib

/-!
Verification of the merge-and-annotate pipeline of `news_agent.py`.

The development shallowly embeds the pure core of the script:

* the rule-based drawback classifier (`suggest_drawback`, `extract_drawback_hint`,
  `VENDOR_WEAKNESSES`);
* the summary extractor (`extract_summary`, `strip_html`) together with a model of
  the regular expressions it uses;
* the JSON store merger (`write_json`), with the Python `dict` modelled as an
  insertion-ordered association list and `list.sort(key=..., reverse=True)`
  modelled as a stable descending insertion sort;
* the configuration check of the mail notifier (`send_email`), with the process
  environment modelled as a partial map from variable names to strings.

File-system and network effects are factored out: `write_json` takes the parsed
content of the existing store as an argument (`none` standing for a missing or
unparseable file) and returns the list that the script serializes; `send_email`
returns either the configuration error or the trace of SMTP actions it would
perform.
-/

set_option maxRecDepth 10000

/-! ### Python string primitives -/

/-- Truthiness of a Python value that is either a string or absent (`None`):
`None` and the empty string are falsy. -/
def pyTruthy : Option String → Bool
  | none => false
  | some s => s ≠ ""

/-- Python `str.strip` whitespace: space, tab, newline, carriage return,
vertical tab and form feed. -/
def isPyStripChar (c : Char) : Bool :=
  c == ' ' || c == '\t' || c == '\n' || c == '\r' || c == '\x0b' || c == '\x0c'

/-- Python's `str.strip()`: remove leading and trailing whitespace. -/
def pyStrip (s : String) : String :=
  String.mk (((s.data.dropWhile isPyStripChar).reverse.dropWhile isPyStripChar).reverse)

/-- Python's `str.lower()` (the inputs of interest are ASCII). -/
def pyLower (s : String) : String :=
  String.mk (s.data.map Char.toLower)

/-- Python's `sep.join(parts)`. -/
def pyJoin (sep : String) : List String → String
  | [] => ""
  | [part] => part
  | part :: parts => part ++ sep ++ pyJoin sep parts

/-- Check that the first list is a prefix of the second. -/
def charsPrefix : List Char → List Char → Bool
  | [], _ => true
  | _ :: _, [] => false
  | a :: as, b :: bs => a == b && charsPrefix as bs

/-- Check that `pat` occurs contiguously inside the second list. -/
def charsContain (pat : List Char) : List Char → Bool
  | [] => pat.isEmpty
  | b :: bs => charsPrefix pat (b :: bs) || charsContain pat bs

/-- Python's `pat in s` substring test. -/
def strContains (s pat : String) : Bool :=
  charsContain pat.data s.data

/-! ### The article and record data model (`Article` dataclass and the JSON
record shape produced by `write_json`) -/

/-- The `Article` dataclass of `news_agent.py`. Absent optional fields are
`none`; the Python code also treats the empty string as an absent link. -/
structure Article where
  title : String
  link : String
  summary : Option String := none
  published : Option String := none
  source : Option String := none
  category : Option String := none
deriving DecidableEq, Repr

/-- One JSON object of the persisted store: the record shape written by
`write_json` (title, link, summary, published, source, category, drawbacks,
fetched). -/
structure NewsRecord where
  title : String
  link : String
  summary : Option String := none
  published : Option String := none
  source : Option String := none
  category : Option String := none
  drawbacks : String := ""
  fetched : String := ""
deriving DecidableEq, Repr

/-! ### The drawback classifier -/

/-- The `VENDOR_WEAKNESSES` table, as an association list in source order. -/
def VENDOR_WEAKNESSES : List (String × String) :=
  [ ( "Databricks",
      "Databricks Genie emphasizes data engineering but lacks ThoughtSpot\x27s live search-driven analytics."),
    ( "Snowflake",
      "Snowflake Cortex targets developers and misses ThoughtSpot\x27s easy natural language queries."),
    ( "Microsoft",
      "Power BI and Copilot tie insights to predefined models, unlike ThoughtSpot\x27s flexible search-first UX."),
    ( "Salesforce",
      "Tableau dashboards require curation whereas ThoughtSpot enables ad-hoc natural language exploration."),
    ( "Sigma Computing",
      "Sigma delivers spreadsheet-style analytics but fewer governed search features than ThoughtSpot."),
    ( "Qlik",
      "Qlik\x27s script-heavy approach complicates setup compared to ThoughtSpot\x27s intuitive search."),
    ( "Looker",
      "Looker and Gemini depend on LookML modeling while ThoughtSpot queries data directly."),
    ( "Google",
      "Google\x27s BI stack is less search-centric than ThoughtSpot\x27s AI-driven analytics.")]

/-- Python's `source in VENDOR_WEAKNESSES` / `VENDOR_WEAKNESSES[source]`. -/
def vendorLookup (s : String) : Option String :=
  match VENDOR_WEAKNESSES.find? (fun p => p.1 == s) with
  | some p => some p.2
  | none => none

/-- Models `llm_drawback` in the configuration the specification calls the
rule-based tier: `OPENAI_API_KEY` is absent, so the function returns `None`
before contacting any external service (lines 236-238 of the source). -/
def llm_drawback (_text : String) (_source : Option String) : Option String :=
  none

/-- Models `llm_summarize` when `OPENAI_API_KEY` is absent: it returns `None`
before contacting any external service (lines 195-197 of the source). -/
def llm_summarize (_text : String) : Option String :=
  none

/-- The `extract_drawback_hint` function: first-match scan of the lower-cased
article text for the fixed keyword groups. -/
def extract_drawback_hint (text : String) : Option String :=
  let lower := pyLower text
  if [ "security", "breach", "privacy", "compliance"].any (fun k => strContains lower k) then
    some "Security and compliance risks remain, an area where ThoughtSpot stresses governance."
  else if [ "cost", "pricing", "expensive"].any (fun k => strContains lower k) then
    some "Pricing could be a concern compared with ThoughtSpot\x27s consumption model."
  else if [ "complex", "complicated", "learning curve", "training"].any (fun k => strContains lower k) then
    some "Complexity may slow adoption versus ThoughtSpot\x27s ease of use."
  else if [ "integration", "migration", "silo"].any (fun k => strContains lower k) then
    some "Integration effort could be higher than ThoughtSpot\x27s straightforward connectivity."
  else if [ "performance", "latency", "slow"].any (fun k => strContains lower k) then
    some "Performance limitations might impede real-time insight, unlike ThoughtSpot\x27s speed."
  else
    none

/-- The combined text `f"{title} {summary or ''}".strip()` built at the top of
`suggest_drawback` (`summary or ''` maps both `None` and `""` to `""`). -/
def combinedText (title : String) (summary : Option String) : String :=
  pyStrip (title ++ " " ++ summary.getD "")

/-- The generic fallback sentence of `suggest_drawback`. -/
def genericFallback : String :=
  "Consider cost, adoption effort, and governance implications."

/-- The `suggest_drawback` function. The guard `source and source in
VENDOR_WEAKNESSES` requires a truthy (non-empty, present) source that is a key
of the table. -/
def suggest_drawback (title : String) (summary : Option String := none)
    (source : Option String := none) : String :=
  let combined := combinedText title summary
  match llm_drawback combined source with
  | some llm => llm
  | none =>
    let hint := extract_drawback_hint combined
    let vendorHit : Option String :=
      match source with
      | some s => if s = "" then none else vendorLookup s
      | none => none
    match vendorHit with
    | some w =>
      match hint with
      | some h => w ++ " " ++ h
      | none => w
    | none =>
      match hint with
      | some h => h
      | none => genericFallback

/-! ### The summarizer -/

/-- A feed entry as `extract_summary` reads it: the `summary` and `description`
text fields and the `content` blocks, where `some v` models a dict block whose
`value` key holds `v`, and `none` models a non-dict block or one without a
value. -/
structure Entry where
  summary : Option String := none
  description : Option String := none
  content : List (Option String) := []
deriving DecidableEq, Repr

/-- Scan for the first closing angle bracket and return the characters after
it. -/
def findTagClose : List Char → Option (List Char)
  | [] => none
  | c :: rest => if c == '>' then some rest else findTagClose rest

/-- Try to match the tail of the tag pattern of `strip_html` (one or more
characters other than a closing angle bracket, then the closing bracket) at
the start of the list, returning the characters after the match. -/
def dropTag : List Char → Option (List Char)
  | [] => none
  | c :: rest => if c == '>' then none else findTagClose rest

/-- Removal of every match of the tag pattern of `strip_html` from a character
list, scanning left to right. The fuel argument only bounds the recursion; a
successful `dropTag` consumes at least one character, so a fuel equal to the
length of the list is enough for the scan to finish. -/
def stripTagsFuel : Nat → List Char → List Char
  | 0, l => l
  | _ + 1, [] => []
  | fuel + 1, c :: rest =>
    if c == '<' then
      match dropTag rest with
      | some rem => stripTagsFuel fuel rem
      | none => c :: stripTagsFuel fuel rest
    else c :: stripTagsFuel fuel rest

/-- Entry point of the tag-removal scan. -/
def stripTags (l : List Char) : List Char :=
  stripTagsFuel l.length l

/-- Models the entity unescaping step of `strip_html` (the Python standard
library function `html.unescape`, which is not part of this repository) on the
named XML entities and the numeric escape of the apostrophe; it is the
identity on text without an ampersand. -/
def unescapeChars : List Char → List Char
  | [] => []
  | '&' :: 'a' :: 'm' :: 'p' :: ';' :: rest => '&' :: unescapeChars rest
  | '&' :: 'l' :: 't' :: ';' :: rest => '<' :: unescapeChars rest
  | '&' :: 'g' :: 't' :: ';' :: rest => '>' :: unescapeChars rest
  | '&' :: 'q' :: 'u' :: 'o' :: 't' :: ';' :: rest => '"' :: unescapeChars rest
  | '&' :: '#' :: '3' :: '9' :: ';' :: rest => '\x27' :: unescapeChars rest
  | '&' :: 'a' :: 'p' :: 'o' :: 's' :: ';' :: rest => '\x27' :: unescapeChars rest
  | c :: rest => c :: unescapeChars rest

/-- The `strip_html` function: remove tags, unescape entities and strip
surrounding whitespace. -/
def strip_html (text : String) : String :=
  pyStrip (String.mk (unescapeChars (stripTags text.data)))

/-- Sentence-ending punctuation of the summary splitter. -/
def isSentEnd (c : Char) : Bool :=
  c == '.' || c == '!' || c == '?'

/-- Worker of the sentence splitter: `prev` is the character before the
current position, `inSep` records that the scan is inside a separating run of
spaces, and `acc` holds the reversed characters of the current piece. A
separator starts at a space preceded by sentence-ending punctuation and
extends over the whole run of spaces, which is discarded. -/
def splitSentencesAux : Option Char → Bool → List Char → List Char → List String
  | _, _, acc, [] => [String.mk acc.reverse]
  | _, true, acc, c :: rest =>
    if c == ' ' then splitSentencesAux (some ' ') true acc rest
    else splitSentencesAux (some c) false (c :: acc) rest
  | prev, false, acc, c :: rest =>
    if c == ' ' && (match prev with | some p => isSentEnd p | none => false) then
      String.mk acc.reverse :: splitSentencesAux (some ' ') true [] rest
    else splitSentencesAux (some c) false (c :: acc) rest

/-- Models the sentence split of `extract_summary` (the regular expression
that splits at runs of spaces preceded by a period, exclamation mark or
question mark, discarding the spaces). -/
def splitSentences (text : String) : List String :=
  splitSentencesAux none false [] text.data

/-- The text fields of an entry that `extract_summary` collects: the truthy
`summary` and `description` values followed by the truthy `content` block
values. -/
def entryParts (e : Entry) : List String :=
  (match e.summary with | some v => if v == "" then [] else [v] | none => []) ++
    (match e.description with | some v => if v == "" then [] else [v] | none => []) ++
    e.content.filterMap
      (fun c => match c with
        | some v => if v == "" then none else some v
        | none => none)

/-- The `extract_summary` function (with `llm_summarize` in its keyless
configuration): collect the truthy text fields, return nothing when none is
present, otherwise strip HTML and return the first two sentences re-joined by
single spaces. -/
def extract_summary (e : Entry) : Option String :=
  let parts := entryParts e
  if parts.isEmpty then none
  else
    let text := strip_html (pyJoin " " parts)
    match llm_summarize text with
    | some llm => some llm
    | none => some (pyStrip (pyJoin " " ((splitSentences text).take 2)))

/-- Sentence splitting as the specification's sentence about the fallback
states it: a boundary is a period, exclamation mark or question mark followed
by whitespace (any whitespace character, not only a space). Defined from the
specification's wording, to compare against the behaviour of the code, which
splits only at spaces. -/
def splitSpecWhitespaceAux : Option Char → Bool → List Char → List Char → List String
  | _, _, acc, [] => [String.mk acc.reverse]
  | _, true, acc, c :: rest =>
    if isPyStripChar c then splitSpecWhitespaceAux (some c) true acc rest
    else splitSpecWhitespaceAux (some c) false (c :: acc) rest
  | prev, false, acc, c :: rest =>
    if isPyStripChar c && (match prev with | some p => isSentEnd p | none => false) then
      String.mk acc.reverse :: splitSpecWhitespaceAux (some c) true [] rest
    else splitSpecWhitespaceAux (some c) false (c :: acc) rest

/-- Wrapper of the specification-worded sentence splitter. -/
def splitSentencesSpecWhitespace (text : String) : List String :=
  splitSpecWhitespaceAux none false [] text.data

/-! ### The store merger (`write_json`) -/

/-- An insertion-ordered association list: the model of a Python `dict`. -/
abbrev RecordDict := List (String × NewsRecord)

/-- Python's `d[k] = v`: replace the value in place at an existing key (the
key keeps its position), or append a new binding at the end. -/
def dictInsert (key : String) (v : NewsRecord) : RecordDict → RecordDict
  | [] => [(key, v)]
  | (k, w) :: rest =>
    if k = key then (k, v) :: rest else (k, w) :: dictInsert key v rest

/-- Python's `d[k]` / `k in d` as a partial lookup. -/
def dictLookup (key : String) : RecordDict → Option NewsRecord
  | [] => none
  | (k, v) :: rest => if k = key then some v else dictLookup key rest

/-- The keys of the dictionary, in insertion order. -/
def dictKeys (d : RecordDict) : List String :=
  d.map Prod.fst

/-- The values of the dictionary, in insertion order: Python's
`list(d.values())`. -/
def dictValues (d : RecordDict) : List NewsRecord :=
  d.map Prod.snd

/-- One step of the loop of `write_json` over the parsed existing store: a
record is kept only under a truthy (non-empty) link. -/
def loadStep (d : RecordDict) (item : NewsRecord) : RecordDict :=
  if item.link = "" then d else dictInsert item.link item d

/-- The `existing` dictionary after the loop over the parsed store file. -/
def loadExisting (items : List NewsRecord) : RecordDict :=
  items.foldl loadStep []

/-- The record that `write_json` builds from an article on the current run:
every field comes from the article, the drawback is recomputed, and the fetch
date is the run date. -/
def recordOf (today : String) (art : Article) : NewsRecord :=
  { title := art.title
    link := art.link
    summary := art.summary
    published := art.published
    source := art.source
    category := art.category
    drawbacks := suggest_drawback art.title art.summary art.source
    fetched := today }

/-- One step of the loop of `write_json` over the digest's articles:
`existing[art.link] = {...}` with no truthiness guard on the link. -/
def upsertStep (today : String) (d : RecordDict) (art : Article) : RecordDict :=
  dictInsert art.link (recordOf today art) d

/-- The dictionary after upserting every article of the digest. -/
def upsertAll (today : String) (d : RecordDict) (arts : List Article) : RecordDict :=
  arts.foldl (upsertStep today) d

/-- The digest's articles in iteration order: `digest.feeds` is an
insertion-ordered mapping from source name to article list, and `write_json`
walks its items in order. -/
def digestArticles (feeds : List (String × List Article)) : List Article :=
  (feeds.map Prod.snd).flatten

/-- Insertion into a list sorted by descending fetch date, before any element
of equal or smaller key: the building block of a stable descending sort. The
key comparison is lexicographic on the characters of the fetch-date string,
exactly Python's code-point string order. -/
def insertDesc (x : NewsRecord) : List NewsRecord → List NewsRecord
  | [] => [x]
  | y :: ys =>
    if y.fetched.data ≤ x.fetched.data then x :: y :: ys else y :: insertDesc x ys

/-- Stable descending insertion sort by the fetch-date string: the model of
`merged.sort(key=lambda x: x.get("fetched", ""), reverse=True)`, which is the
unique stable reordering that descends on the key. -/
def sortDesc : List NewsRecord → List NewsRecord
  | [] => []
  | x :: xs => insertDesc x (sortDesc xs)

/-- The list that `write_json` serializes. The `stored` argument is the parsed
content of the existing JSON file; `none` models a missing file as well as one
whose content raises `json.JSONDecodeError`, in both of which cases the
`existing` dictionary stays empty. -/
def write_json (today : String) (stored : Option (List NewsRecord))
    (feeds : List (String × List Article)) : List NewsRecord :=
  let existing : RecordDict :=
    match stored with
    | none => []
    | some items => loadExisting items
  sortDesc (dictValues (upsertAll today existing (digestArticles feeds)))

/-! ### The notifier (`send_email`) -/

/-- The process environment, as a partial map from variable names to values. -/
abbrev EnvMap := String → Option String

/-- One network-facing action of `send_email`, in the order the Python code
performs them inside the SMTP session. -/
inductive MailAction where
  | connect (host : String) (port : Int)
  | starttls
  | login (user password : String)
  | sendmail (sender : String) (recipients : List String) (body : String)
deriving DecidableEq, Repr

/-- Accumulate a decimal digit string into a number; any non-digit fails. -/
def digitsToNatAux (acc : Nat) : List Char → Option Nat
  | [] => some acc
  | c :: rest =>
    if c.isDigit then digitsToNatAux (acc * 10 + (c.toNat - 48)) rest
    else none

/-- Python's `int(s)` on the claims' inputs: an optional sign and decimal
digits, with surrounding whitespace tolerated; anything else raises
`ValueError`, modelled as `none`. -/
def pyInt (s : String) : Option Int :=
  match (pyStrip s).data with
  | [] => none
  | '-' :: [] => none
  | '-' :: rest => (digitsToNatAux 0 rest).map (fun n => -(n : Int))
  | '+' :: [] => none
  | '+' :: rest => (digitsToNatAux 0 rest).map (fun n => (n : Int))
  | l => (digitsToNatAux 0 l).map (fun n => (n : Int))

/-- Python's `s.split(",")`. -/
def splitCommaAux (acc : List Char) : List Char → List String
  | [] => [String.mk acc.reverse]
  | c :: rest =>
    if c == ',' then String.mk acc.reverse :: splitCommaAux [] rest
    else splitCommaAux (c :: acc) rest

/-- The sender address: `os.environ.get("EMAIL_FROM", user)` defaults to the
username only when `EMAIL_FROM` is missing from the environment. -/
def mailSender (env : EnvMap) : Option String :=
  match env "EMAIL_FROM" with
  | some s => some s
  | none => env "SMTP_USER"

/-- The `send_email` function up to the SMTP session: it reads the mail
configuration from the environment, raises (`Except.error`) before opening any
connection when the port value is not an integer or when any of host, user,
password, sender or recipients is missing or empty (`not all([...])`), and
otherwise would perform exactly the returned trace of network actions. -/
def send_email (env : EnvMap) (digestText : String) :
    Except String (List MailAction) :=
  let host := env "SMTP_HOST"
  let user := env "SMTP_USER"
  let password := env "SMTP_PASS"
  let sender := mailSender env
  let recipients := env "EMAIL_TO"
  match pyInt ((env "SMTP_PORT").getD "587") with
  | none => Except.error "invalid literal for int() with base 10"
  | some port =>
    if pyTruthy host && pyTruthy user && pyTruthy password &&
        pyTruthy sender && pyTruthy recipients then
      Except.ok
        [ MailAction.connect (host.getD "") port
        , MailAction.starttls
        , MailAction.login (user.getD "") (password.getD "")
        , MailAction.sendmail (sender.getD "")
            (splitCommaAux [] (recipients.getD "").data) digestText]
    else
      Except.error "Missing SMTP or email configuration environment variables"

/-! ### Dictionary lemmas -/

/-- Every stored value carries its key as its link; `write_json` maintains
this invariant of the `existing` dictionary. -/
def linkInv (d : RecordDict) : Prop :=
  ∀ p ∈ d, p.2.link = p.1

theorem dictKeys_cons (p : String × NewsRecord) (d : RecordDict) :
    dictKeys (p :: d) = p.1 :: dictKeys d := rfl

theorem dictValues_cons (p : String × NewsRecord) (d : RecordDict) :
    dictValues (p :: d) = p.2 :: dictValues d := rfl

theorem dictInsert_cons (k : String) (v : NewsRecord) (pk : String)
    (pv : NewsRecord) (rest : RecordDict) :
    dictInsert k v ((pk, pv) :: rest) =
      if pk = k then (pk, v) :: rest else (pk, pv) :: dictInsert k v rest := rfl

theorem mem_keys_dictInsert {k' k : String} {v : NewsRecord} {d : RecordDict} :
    k' ∈ dictKeys (dictInsert k v d) ↔ k' = k ∨ k' ∈ dictKeys d := by
  induction d with
  | nil => simp [dictInsert, dictKeys]
  | cons p rest ih =>
    obtain ⟨pk, pv⟩ := p
    by_cases hp : pk = k
    · subst hp
      rw [dictInsert_cons, if_pos rfl, dictKeys_cons, dictKeys_cons]
      simp
    · rw [dictInsert_cons, if_neg hp, dictKeys_cons, dictKeys_cons]
      simp [ih]
      tauto

theorem nodup_keys_dictInsert {k : String} {v : NewsRecord} {d : RecordDict}
    (h : (dictKeys d).Nodup) : (dictKeys (dictInsert k v d)).Nodup := by
  induction d with
  | nil => simp [dictInsert, dictKeys]
  | cons p rest ih =>
    obtain ⟨pk, pv⟩ := p
    rw [dictKeys_cons, List.nodup_cons] at h
    by_cases hp : pk = k
    · subst hp
      rw [dictInsert_cons, if_pos rfl, dictKeys_cons, List.nodup_cons]
      exact h
    · rw [dictInsert_cons, if_neg hp, dictKeys_cons, List.nodup_cons]
      constructor
      · intro hmem
        rcases mem_keys_dictInsert.mp hmem with hk | hk
        · exact hp hk
        · exact h.1 hk
      · exact ih h.2

theorem dictLookup_dictInsert_self {k : String} {v : NewsRecord} {d : RecordDict} :
    dictLookup k (dictInsert k v d) = some v := by
  induction d with
  | nil => simp [dictInsert, dictLookup]
  | cons p rest ih =>
    obtain ⟨pk, pv⟩ := p
    by_cases hp : pk = k
    · subst hp
      simp [dictInsert, dictLookup]
    · simp [dictInsert, hp, dictLookup, ih]

theorem dictLookup_dictInsert_ne {k' k : String} {v : NewsRecord} {d : RecordDict}
    (h : k' ≠ k) : dictLookup k' (dictInsert k v d) = dictLookup k' d := by
  have hk : ¬ k = k' := fun hh => h hh.symm
  induction d with
  | nil => simp [dictInsert, dictLookup, hk]
  | cons p rest ih =>
    obtain ⟨pk, pv⟩ := p
    by_cases hp : pk = k
    · subst hp
      simp [dictInsert, dictLookup, hk]
    · simp [dictInsert, hp, dictLookup, ih]

theorem linkInv_dictInsert {k : String} {v : NewsRecord} {d : RecordDict}
    (hd : linkInv d) (hv : v.link = k) : linkInv (dictInsert k v d) := by
  induction d with
  | nil =>
    intro p hp
    simp [dictInsert] at hp
    subst hp
    exact hv
  | cons q rest ih =>
    obtain ⟨qk, qv⟩ := q
    have hq : qv.link = qk := hd ⟨qk, qv⟩ (by simp)
    have hrest : linkInv rest := fun p hp => hd p (by simp [hp])
    by_cases hp : qk = k
    · subst hp
      intro p hp
      simp [dictInsert] at hp
      rcases hp with hp | hp
      · subst hp
        exact hv
      · exact hrest p hp
    · intro p hmem
      simp [dictInsert, hp] at hmem
      rcases hmem with hmem | hmem
      · subst hmem
        exact hq
      · exact ih hrest p hmem

theorem dictInsert_of_not_mem_keys {k : String} {v : NewsRecord} {d : RecordDict}
    (h : k ∉ dictKeys d) : dictInsert k v d = d ++ [(k, v)] := by
  induction d with
  | nil => simp [dictInsert]
  | cons p rest ih =>
    obtain ⟨pk, pv⟩ := p
    have hpk : ¬ pk = k := by
      intro hh
      exact h (by simp [dictKeys_cons, hh])
    have hrest : k ∉ dictKeys rest := by
      intro hh
      exact h (by simp [dictKeys_cons, hh])
    simp [dictInsert, hpk, ih hrest]

theorem mem_dictInsert {p : String × NewsRecord} {k : String} {v : NewsRecord}
    {d : RecordDict} (h : p ∈ dictInsert k v d) : p = (k, v) ∨ p ∈ d := by
  induction d with
  | nil =>
    simp [dictInsert] at h
    exact Or.inl h
  | cons q rest ih =>
    obtain ⟨qk, qv⟩ := q
    by_cases hq : qk = k
    · subst hq
      simp [dictInsert] at h
      rcases h with h | h
      · exact Or.inl (by simp [h])
      · exact Or.inr (by simp [h])
    · simp [dictInsert, hq] at h
      rcases h with h | h
      · exact Or.inr (by simp [h])
      · rcases ih h with h' | h'
        · exact Or.inl h'
        · exact Or.inr (by simp [h'])

theorem mem_values_of_dictLookup {k : String} {v : NewsRecord} {d : RecordDict}
    (h : dictLookup k d = some v) : v ∈ dictValues d := by
  induction d with
  | nil => simp [dictLookup] at h
  | cons p rest ih =>
    obtain ⟨pk, pv⟩ := p
    by_cases hp : pk = k
    · simp [dictLookup, hp] at h
      simp [dictValues, h]
    · simp [dictLookup, hp] at h
      simp [dictValues]
      exact Or.inr (by simpa [dictValues] using ih h)

theorem dictLookup_eq_none {k : String} {d : RecordDict}
    (h : k ∉ dictKeys d) : dictLookup k d = none := by
  induction d with
  | nil => simp [dictLookup]
  | cons p rest ih =>
    obtain ⟨pk, pv⟩ := p
    have hpk : ¬ pk = k := by
      intro hh
      exact h (by simp [dictKeys_cons, hh])
    have hrest : k ∉ dictKeys rest := by
      intro hh
      exact h (by simp [dictKeys_cons, hh])
    simp [dictLookup, hpk, ih hrest]

theorem link_of_dictLookup {k : String} {v : NewsRecord} {d : RecordDict}
    (hinv : linkInv d) (h : dictLookup k d = some v) : v.link = k := by
  induction d with
  | nil => simp [dictLookup] at h
  | cons p rest ih =>
    obtain ⟨pk, pv⟩ := p
    by_cases hp : pk = k
    · subst hp
      simp [dictLookup] at h
      rw [← h]
      exact hinv ⟨pk, pv⟩ (by simp)
    · simp [dictLookup, hp] at h
      exact ih (fun q hq => hinv q (by simp [hq])) h

theorem values_filter_nil_of_not_mem {k : String} {d : RecordDict}
    (hk : k ∉ dictKeys d) (hinv : linkInv d) :
    (dictValues d).filter (fun r => r.link == k) = [] := by
  induction d with
  | nil => rfl
  | cons p rest ih =>
    obtain ⟨pk, pv⟩ := p
    have hlink : pv.link = pk := hinv ⟨pk, pv⟩ (by simp)
    have hpk : ¬ pk = k := fun hh => hk (by simp [dictKeys_cons, hh])
    have hrest : k ∉ dictKeys rest := fun hh => hk (by simp [dictKeys_cons, hh])
    have hrinv : linkInv rest := fun q hq => hinv q (by simp [hq])
    have hcond : (pv.link == k) = false := by
      rw [beq_eq_false_iff_ne, hlink]
      exact hpk
    rw [dictValues_cons, List.filter_cons, hcond]
    exact ih hrest hrinv

theorem values_filter_eq_lookup {k : String} {d : RecordDict}
    (hnd : (dictKeys d).Nodup) (hinv : linkInv d) :
    (dictValues d).filter (fun r => r.link == k) =
      (match dictLookup k d with
       | some v => [v]
       | none => []) := by
  induction d with
  | nil => rfl
  | cons p rest ih =>
    obtain ⟨pk, pv⟩ := p
    have hlink : pv.link = pk := hinv ⟨pk, pv⟩ (by simp)
    rw [dictKeys_cons, List.nodup_cons] at hnd
    have hrinv : linkInv rest := fun q hq => hinv q (by simp [hq])
    by_cases hp : pk = k
    · subst hp
      have hcond : (pv.link == pk) = true := by
        rw [beq_iff_eq]
        exact hlink
      rw [dictValues_cons, List.filter_cons, hcond]
      show pv :: (dictValues rest).filter (fun r => r.link == pk) = _
      rw [values_filter_nil_of_not_mem hnd.1 hrinv]
      rw [show dictLookup pk ((pk, pv) :: rest) = some pv from by simp [dictLookup]]
    · have hcond : (pv.link == k) = false := by
        rw [beq_eq_false_iff_ne, hlink]
        exact hp
      rw [dictValues_cons, List.filter_cons, hcond]
      show (dictValues rest).filter (fun r => r.link == k) = _
      rw [ih hnd.2 hrinv]
      rw [show dictLookup k ((pk, pv) :: rest) = dictLookup k rest from by
        simp [dictLookup, hp]]

/-! ### Fold lemmas for the `write_json` loops -/

theorem foldl_preserve {α : Type} {P : RecordDict → Prop}
    (f : RecordDict → α → RecordDict) (hf : ∀ d a, P d → P (f d a)) :
    ∀ (l : List α) (d : RecordDict), P d → P (l.foldl f d)
  | [], _, h => h
  | a :: l, d, h => foldl_preserve f hf l (f d a) (hf d a h)

/-- Invariant of the `existing` dictionary built from the stored file: keys
are distinct and truthy, and every value carries its key as its link. -/
def storeInv (d : RecordDict) : Prop :=
  (dictKeys d).Nodup ∧ linkInv d ∧ ∀ kk ∈ dictKeys d, kk ≠ ""

theorem storeInv_loadStep (d : RecordDict) (item : NewsRecord)
    (h : storeInv d) : storeInv (loadStep d item) := by
  unfold loadStep
  by_cases hl : item.link = ""
  · simpa [hl] using h
  · rw [if_neg hl]
    refine ⟨nodup_keys_dictInsert h.1, linkInv_dictInsert h.2.1 rfl, ?_⟩
    intro kk hkk
    rcases mem_keys_dictInsert.mp hkk with hk | hk
    · subst hk
      exact hl
    · exact h.2.2 kk hk

theorem storeInv_loadExisting (items : List NewsRecord) :
    storeInv (loadExisting items) :=
  foldl_preserve loadStep storeInv_loadStep items []
    ⟨by simp [dictKeys], by intro p hp; simp at hp, by simp [dictKeys]⟩

/-- Invariant kept by the upsert loop: distinct keys, values linked to their
keys. -/
def mergeInv (d : RecordDict) : Prop :=
  (dictKeys d).Nodup ∧ linkInv d

theorem mergeInv_upsertStep (today : String) (d : RecordDict) (art : Article)
    (h : mergeInv d) : mergeInv (upsertStep today d art) :=
  ⟨nodup_keys_dictInsert h.1, linkInv_dictInsert h.2 rfl⟩

theorem mergeInv_upsertAll (today : String) (arts : List Article)
    (d : RecordDict) (h : mergeInv d) : mergeInv (upsertAll today d arts) :=
  foldl_preserve (upsertStep today) (mergeInv_upsertStep today) arts d h

theorem dictLookup_upsertAll (today L : String) (arts : List Article)
    (d : RecordDict) :
    dictLookup L (upsertAll today d arts) =
      (match (arts.filter (fun a => a.link == L)).getLast? with
       | some a => some (recordOf today a)
       | none => dictLookup L d) := by
  induction arts using List.reverseRecOn with
  | nil => rfl
  | append_singleton arts a ih =>
    have hstep : upsertAll today d (arts ++ [a]) =
        dictInsert a.link (recordOf today a) (upsertAll today d arts) := by
      unfold upsertAll
      rw [List.foldl_append]
      rfl
    rw [hstep]
    by_cases ha : a.link = L
    · subst ha
      rw [dictLookup_dictInsert_self, List.filter_append]
      simp
    · rw [dictLookup_dictInsert_ne (fun hh => ha hh.symm), ih, List.filter_append]
      simp [ha]

theorem dictLookup_loadFold {L : String} (hL : L ≠ "")
    (items : List NewsRecord) (d : RecordDict) :
    dictLookup L (items.foldl loadStep d) =
      (match (items.filter (fun r => r.link == L)).getLast? with
       | some r => some r
       | none => dictLookup L d) := by
  induction items using List.reverseRecOn with
  | nil => rfl
  | append_singleton items r ih =>
    have hstep : (items ++ [r]).foldl loadStep d =
        loadStep (items.foldl loadStep d) r := by
      rw [List.foldl_append]
      rfl
    rw [hstep]
    by_cases hr : r.link = ""
    · have hrL : ¬ r.link = L := by
        rw [hr]
        exact fun hh => hL hh.symm
      rw [show loadStep (items.foldl loadStep d) r = items.foldl loadStep d from by
        unfold loadStep
        rw [if_pos hr]]
      rw [ih, List.filter_append]
      simp [hrL]
    · rw [show loadStep (items.foldl loadStep d) r =
          dictInsert r.link r (items.foldl loadStep d) from by
        unfold loadStep
        rw [if_neg hr]]
      by_cases hral : r.link = L
      · subst hral
        rw [dictLookup_dictInsert_self, List.filter_append]
        simp
      · rw [dictLookup_dictInsert_ne (fun hh => hral hh.symm), ih, List.filter_append]
        simp [hral]

theorem dictLookup_loadExisting {L : String} (hL : L ≠ "")
    (items : List NewsRecord) :
    dictLookup L (loadExisting items) =
      (match (items.filter (fun r => r.link == L)).getLast? with
       | some r => some r
       | none => none) := by
  rw [loadExisting, dictLookup_loadFold hL items []]
  cases (items.filter (fun r => r.link == L)).getLast? with
  | none => rfl
  | some r => rfl

theorem mem_upsertAll (today : String) (arts : List Article) :
    ∀ (d : RecordDict) (p : String × NewsRecord), p ∈ upsertAll today d arts →
      p ∈ d ∨ ∃ a ∈ arts, p = (a.link, recordOf today a) := by
  induction arts with
  | nil =>
    intro d p hp
    exact Or.inl hp
  | cons a arts ih =>
    intro d p hp
    unfold upsertAll at hp
    rw [List.foldl_cons] at hp
    rcases ih (upsertStep today d a) p hp with hm | hm
    · rcases mem_dictInsert hm with h | h
      · exact Or.inr ⟨a, by simp, h⟩
      · exact Or.inl h
    · obtain ⟨b, hb, hbp⟩ := hm
      exact Or.inr ⟨b, by simp [hb], hbp⟩

theorem values_map_link {d : RecordDict} (hinv : linkInv d) :
    (dictValues d).map NewsRecord.link = dictKeys d := by
  induction d with
  | nil => rfl
  | cons p rest ih =>
    obtain ⟨pk, pv⟩ := p
    have hlink : pv.link = pk := hinv ⟨pk, pv⟩ (by simp)
    rw [dictValues_cons, dictKeys_cons, List.map_cons]
    rw [show NewsRecord.link pv = pk from hlink]
    rw [ih (fun q hq => hinv q (by simp [hq]))]

/-! ### Sorting lemmas -/

theorem insertDesc_perm (x : NewsRecord) (l : List NewsRecord) :
    List.Perm (insertDesc x l) (x :: l) := by
  induction l with
  | nil => exact List.Perm.refl _
  | cons y ys ih =>
    unfold insertDesc
    by_cases h : y.fetched.data ≤ x.fetched.data
    · rw [if_pos h]
    · rw [if_neg h]
      exact (ih.cons y).trans (List.Perm.swap x y ys)

theorem sortDesc_perm (l : List NewsRecord) : List.Perm (sortDesc l) l := by
  induction l with
  | nil => exact List.Perm.refl _
  | cons x xs ih => exact (insertDesc_perm x (sortDesc xs)).trans (ih.cons x)

theorem pairwise_insertDesc {x : NewsRecord} {l : List NewsRecord}
    (h : l.Pairwise (fun a b => b.fetched.data ≤ a.fetched.data)) :
    (insertDesc x l).Pairwise (fun a b => b.fetched.data ≤ a.fetched.data) := by
  induction l with
  | nil => simp [insertDesc]
  | cons y ys ih =>
    rw [List.pairwise_cons] at h
    unfold insertDesc
    by_cases hc : y.fetched.data ≤ x.fetched.data
    · rw [if_pos hc, List.pairwise_cons]
      constructor
      · intro z hz
        rcases List.mem_cons.mp hz with hz | hz
        · subst hz
          exact hc
        · exact le_trans (h.1 z hz) hc
      · rw [List.pairwise_cons]
        exact h
    · rw [if_neg hc, List.pairwise_cons]
      constructor
      · intro z hz
        rcases List.mem_cons.mp ((insertDesc_perm x ys).mem_iff.mp hz) with hz | hz
        · subst hz
          exact le_of_not_le hc
        · exact h.1 z hz
      · exact ih h.2

theorem pairwise_sortDesc (l : List NewsRecord) :
    (sortDesc l).Pairwise (fun a b => b.fetched.data ≤ a.fetched.data) := by
  induction l with
  | nil => simp [sortDesc]
  | cons x xs ih => exact pairwise_insertDesc ih

theorem filter_fetched_insertDesc (dt : String) (x : NewsRecord)
    (l : List NewsRecord) :
    (insertDesc x l).filter (fun r => r.fetched == dt) =
      (x :: l).filter (fun r => r.fetched == dt) := by
  induction l with
  | nil => rfl
  | cons y ys ih =>
    unfold insertDesc
    by_cases hc : y.fetched.data ≤ x.fetched.data
    · rw [if_pos hc]
    · rw [if_neg hc]
      by_cases px : x.fetched = dt <;> by_cases py : y.fetched = dt
      · exact absurd (le_of_eq (congrArg String.data (py.trans px.symm))) hc
      all_goals simp [List.filter_cons, ih, px, py]

theorem filter_fetched_sortDesc (dt : String) (l : List NewsRecord) :
    (sortDesc l).filter (fun r => r.fetched == dt) =
      l.filter (fun r => r.fetched == dt) := by
  induction l with
  | nil => rfl
  | cons x xs ih =>
    show (insertDesc x (sortDesc xs)).filter (fun r => r.fetched == dt) = _
    rw [filter_fetched_insertDesc, List.filter_cons, List.filter_cons, ih]

/-! ### Fresh-key append lemmas -/

theorem upsertAll_of_fresh (today : String) (arts : List Article) :
    ∀ (d : RecordDict), (∀ a ∈ arts, a.link ∉ dictKeys d) →
      ((arts.map Article.link).Nodup) →
      upsertAll today d arts = d ++ arts.map (fun a => (a.link, recordOf today a)) := by
  induction arts with
  | nil =>
    intro d _ _
    simp [upsertAll]
  | cons a arts ih =>
    intro d hfresh hnd
    rw [List.map_cons, List.nodup_cons] at hnd
    have hstep : upsertAll today d (a :: arts) =
        upsertAll today (dictInsert a.link (recordOf today a) d) arts := rfl
    rw [hstep, dictInsert_of_not_mem_keys (hfresh a (by simp))]
    rw [ih (d ++ [(a.link, recordOf today a)]) ?_ hnd.2]
    · simp
    · intro b hb hmem
      have hkeys : dictKeys (d ++ [(a.link, recordOf today a)]) =
          dictKeys d ++ [a.link] := by
        simp [dictKeys]
      rw [hkeys] at hmem
      rcases List.mem_append.mp hmem with hm | hm
      · exact hfresh b (by simp [hb]) hm
      · simp at hm
        exact hnd.1 (hm ▸ List.mem_map_of_mem Article.link hb)

theorem loadFold_of_fresh (items : List NewsRecord) :
    ∀ (d : RecordDict), (∀ r ∈ items, r.link ∉ dictKeys d) →
      ((items.map NewsRecord.link).Nodup) → (∀ r ∈ items, r.link ≠ "") →
      items.foldl loadStep d = d ++ items.map (fun r => (r.link, r)) := by
  induction items with
  | nil =>
    intro d _ _ _
    simp
  | cons r items ih =>
    intro d hfresh hnd hne
    rw [List.map_cons, List.nodup_cons] at hnd
    have hstep : (r :: items).foldl loadStep d =
        items.foldl loadStep (loadStep d r) := rfl
    rw [hstep]
    rw [show loadStep d r = dictInsert r.link r d from by
      unfold loadStep
      rw [if_neg (hne r (by simp))]]
    rw [dictInsert_of_not_mem_keys (hfresh r (by simp))]
    rw [ih (d ++ [(r.link, r)]) ?_ hnd.2 (fun q hq => hne q (by simp [hq]))]
    · simp
    · intro b hb hmem
      have hkeys : dictKeys (d ++ [(r.link, r)]) = dictKeys d ++ [r.link] := by
        simp [dictKeys]
      rw [hkeys] at hmem
      rcases List.mem_append.mp hmem with hm | hm
      · exact hfresh b (by simp [hb]) hm
      · simp at hm
        exact hnd.1 (hm ▸ List.mem_map_of_mem NewsRecord.link hb)

/-! ### Link-filter helpers -/

theorem filter_link_nil {L : String} {l : List NewsRecord}
    (h : L ∉ l.map NewsRecord.link) : l.filter (fun x => x.link == L) = [] := by
  induction l with
  | nil => rfl
  | cons x xs ih =>
    rw [List.filter_cons]
    have hx : (x.link == L) = false := by
      rw [beq_eq_false_iff_ne]
      intro he
      exact h (by simp [← he])
    rw [hx]
    exact ih (fun hm => h (by simp [List.map_cons]; right; simpa using hm))

theorem filter_link_eq_self {r : NewsRecord} {l : List NewsRecord}
    (hmem : r ∈ l) (hnd : (l.map NewsRecord.link).Nodup) :
    l.filter (fun x => x.link == r.link) = [r] := by
  induction l with
  | nil => simp at hmem
  | cons x xs ih =>
    rw [List.map_cons, List.nodup_cons] at hnd
    rcases List.mem_cons.mp hmem with he | hm
    · subst he
      rw [List.filter_cons, show (r.link == r.link) = true from by simp]
      rw [filter_link_nil hnd.1]
      rfl
    · have hx : (x.link == r.link) = false := by
        rw [beq_eq_false_iff_ne]
        intro he
        exact hnd.1 (he ▸ List.mem_map_of_mem NewsRecord.link hm)
      rw [List.filter_cons, hx]
      exact ih hm hnd.2

theorem getLast?_filter_key {α : Type} (key : α → String) {L : String}
    {l : List α} {x : α} (hmem : x ∈ l) (hx : key x = L) :
    ∃ y, (l.filter (fun z => key z == L)).getLast? = some y ∧ key y = L := by
  have hne : l.filter (fun z => key z == L) ≠ [] := by
    intro hnil
    have hxm : x ∈ l.filter (fun z => key z == L) :=
      List.mem_filter.mpr ⟨hmem, by simp [hx]⟩
    rw [hnil] at hxm
    simp at hxm
  cases hl : (l.filter (fun z => key z == L)).getLast? with
  | none => exact absurd (List.getLast?_eq_none_iff.mp hl) hne
  | some y =>
    refine ⟨y, rfl, ?_⟩
    have hy := List.mem_of_mem_getLast? hl
    have := (List.mem_filter.mp hy).2
    simpa using this

/-! ### Claims about the drawback classifier -/

/-- C2 (counterexample): the feed entry with title "Acme announces AI
automation platform", empty summary and unknown source "Acme" does not yield
the sentence the specification quotes; the keyword scan of
`extract_drawback_hint` has no ai/machine-learning/automation group and no
such canned sentence exists in the code. -/
theorem acme_ai_example_not_compute_sentence :
    suggest_drawback "Acme announces AI automation platform" (some "") (some "Acme") ≠
      "Could require significant compute resources and expert oversight." := by
  decide

/-- C2 (amended): the rule-based tier scans the lower-cased title+summary for
the keyword groups security/breach/privacy/compliance, cost/pricing/expensive,
complex/complicated/learning-curve/training, integration/migration/silo and
performance/latency/slow; there is no ai/automation group, so the Acme entry
matches no keyword group and no vendor entry and yields the generic fallback
sentence. -/
theorem acme_ai_example_generic_fallback :
    extract_drawback_hint
        (combinedText "Acme announces AI automation platform" (some "")) = none ∧
    suggest_drawback "Acme announces AI automation platform" (some "") (some "Acme") =
      genericFallback := by
  constructor
  · decide
  · decide

/-- C3: with no external text-generation call configured, `suggest_drawback`
is a deterministic function of (title, summary, source) and applies its tiers
in fixed precedence: a source matching the vendor-weakness table returns the
table entry (with the keyword hint appended when one matches) before any
generic keyword sentence; a keyword hint is returned when no vendor matches;
and the generic fallback is returned only when neither matches. -/
theorem suggest_drawback_tier_precedence (title : String)
    (summary source : Option String) :
    (∀ s w, source = some s → vendorLookup s = some w →
      suggest_drawback title summary source =
        (match extract_drawback_hint (combinedText title summary) with
         | some h => w ++ " " ++ h
         | none => w)) ∧
    ((∀ s, source = some s → vendorLookup s = none) →
      ∀ h, extract_drawback_hint (combinedText title summary) = some h →
        suggest_drawback title summary source = h) ∧
    ((∀ s, source = some s → vendorLookup s = none) →
      extract_drawback_hint (combinedText title summary) = none →
      suggest_drawback title summary source = genericFallback) := by
  refine ⟨?_, ?_, ?_⟩
  · intro s w hs hw
    subst hs
    have hne : ¬ s = "" := by
      intro he
      rw [he] at hw
      rw [show vendorLookup "" = none from rfl] at hw
      exact Option.noConfusion hw
    unfold suggest_drawback llm_drawback
    simp only [hne, if_false, hw]
  · intro hv h hh
    unfold suggest_drawback llm_drawback
    cases hsrc : source with
    | none => simp [hh]
    | some s =>
      by_cases hse : s = ""
      · simp [hse, hh]
      · simp [hse, hv s hsrc, hh]
  · intro hv hh
    unfold suggest_drawback llm_drawback
    cases hsrc : source with
    | none => simp [hh, genericFallback]
    | some s =>
      by_cases hse : s = ""
      · simp [hse, hh, genericFallback]
      · simp [hse, hv s hsrc, hh, genericFallback]

/-- Witness for C3 at concrete inputs: the vendor tier (with its keyword hint
appended), the keyword tier for an unknown vendor, and the generic fallback. -/
theorem suggest_drawback_tier_precedence_witness :
    suggest_drawback "Pricing update" none (some "Qlik") =
      "Qlik\x27s script-heavy approach complicates setup compared to ThoughtSpot\x27s intuitive search." ++
        " " ++ "Pricing could be a concern compared with ThoughtSpot\x27s consumption model." ∧
    suggest_drawback "Pricing update" none (some "Acme") =
      "Pricing could be a concern compared with ThoughtSpot\x27s consumption model." ∧
    suggest_drawback "Launch event" none (some "Acme") = genericFallback := by
  refine ⟨?_, ?_, ?_⟩
  · have h := (suggest_drawback_tier_precedence "Pricing update" none (some "Qlik")).1
      "Qlik"
      "Qlik\x27s script-heavy approach complicates setup compared to ThoughtSpot\x27s intuitive search."
      rfl (by decide)
    rw [h]
    rw [show extract_drawback_hint (combinedText "Pricing update" none) =
        some "Pricing could be a concern compared with ThoughtSpot\x27s consumption model." from by
      decide]
  · exact (suggest_drawback_tier_precedence "Pricing update" none (some "Acme")).2.1
      (by
        intro s hs
        cases hs
        decide)
      "Pricing could be a concern compared with ThoughtSpot\x27s consumption model." (by decide)
  · exact (suggest_drawback_tier_precedence "Launch event" none (some "Acme")).2.2
      (by
        intro s hs
        cases hs
        decide)
      (by decide)

/-! ### Claims about the store merger -/

/-- C1: merging an existing record set that contains a record with link L with
a current run whose unique digest article with link L is `art` writes exactly
one record for L; that record's fields are taken entirely from the article
(full overwrite) and its fetch date is the run date; and the output never
contains two records with the same link. -/
theorem write_json_replaces_record (today : String) (stored : List NewsRecord)
    (feeds : List (String × List Article)) (L : String) (art : Article)
    (hstore : ∃ r ∈ stored, r.link = L)
    (hart : (digestArticles feeds).filter (fun a => a.link == L) = [art]) :
    (write_json today (some stored) feeds).filter (fun r => r.link == L) =
      [recordOf today art] ∧
    (recordOf today art).fetched = today ∧
    ((write_json today (some stored) feeds).map NewsRecord.link).Nodup := by
  have hsi := storeInv_loadExisting stored
  have hmi : mergeInv (upsertAll today (loadExisting stored) (digestArticles feeds)) :=
    mergeInv_upsertAll today (digestArticles feeds) (loadExisting stored) ⟨hsi.1, hsi.2.1⟩
  have hwj : write_json today (some stored) feeds =
      sortDesc (dictValues (upsertAll today (loadExisting stored) (digestArticles feeds))) := rfl
  have hlook : dictLookup L (upsertAll today (loadExisting stored) (digestArticles feeds)) =
      some (recordOf today art) := by
    rw [dictLookup_upsertAll, hart]
    simp
  have hfv : (dictValues (upsertAll today (loadExisting stored)
      (digestArticles feeds))).filter (fun r => r.link == L) = [recordOf today art] := by
    rw [values_filter_eq_lookup hmi.1 hmi.2, hlook]
  refine ⟨?_, rfl, ?_⟩
  · rw [hwj]
    have hperm := (sortDesc_perm (dictValues (upsertAll today (loadExisting stored)
      (digestArticles feeds)))).filter (fun r => r.link == L)
    rw [hfv] at hperm
    exact List.Perm.eq_singleton hperm
  · rw [hwj]
    have hperm := (sortDesc_perm (dictValues (upsertAll today (loadExisting stored)
      (digestArticles feeds)))).map NewsRecord.link
    rw [values_map_link hmi.2] at hperm
    exact hperm.nodup_iff.mpr hmi.1

/-- Witness for C1: a one-record store re-fetched under the same link. -/
theorem write_json_replaces_record_witness :
    (write_json "2025-06-01"
        (some [{ title := "Old", link := "L1", drawbacks := "d", fetched := "2025-01-01" }])
        [( "Src", [{ title := "New", link := "L1", source := some "Src" }])]).filter
      (fun r => r.link == "L1") =
      [recordOf "2025-06-01" { title := "New", link := "L1", source := some "Src" }] ∧
    (recordOf "2025-06-01"
      { title := "New", link := "L1", source := some "Src" }).fetched = "2025-06-01" ∧
    ((write_json "2025-06-01"
        (some [{ title := "Old", link := "L1", drawbacks := "d", fetched := "2025-01-01" }])
        [( "Src", [{ title := "New", link := "L1", source := some "Src" }])]).map
      NewsRecord.link).Nodup :=
  write_json_replaces_record "2025-06-01"
    [{ title := "Old", link := "L1", drawbacks := "d", fetched := "2025-01-01" }]
    [( "Src", [{ title := "New", link := "L1", source := some "Src" }])] "L1"
    { title := "New", link := "L1", source := some "Src" }
    (by decide) (by decide)

/-- C4 (counterexample): a stored record whose link is empty is dropped by the
merge even though its link does not occur among the current-run articles
(which form a pair with distinct links), so the claim fails as stated for
falsy-link records. -/
theorem write_json_frame_counterexample :
    ({ title := "T", link := "", drawbacks := "d", fetched := "2025-01-01" } : NewsRecord).link ∉
      (digestArticles
        [( "S", [{ title := "A", link := "a" }, { title := "B", link := "b" }])]).map
        Article.link ∧
    ({ title := "A", link := "a" } : Article).link ≠
      ({ title := "B", link := "b" } : Article).link ∧
    ({ title := "T", link := "", drawbacks := "d", fetched := "2025-01-01" } : NewsRecord) ∉
      write_json "2025-01-02"
        (some [{ title := "T", link := "", drawbacks := "d", fetched := "2025-01-01" }])
        [( "S", [{ title := "A", link := "a" }, { title := "B", link := "b" }])] := by
  refine ⟨by decide, by decide, by decide⟩

/-- C4 (amended): for a store with at most one record per link (the data
model's invariant) and a run whose digest holds `a` and `b` as its unique
articles for their two distinct links, both articles appear as separate
records in the merged output, and every stored record with a non-empty link
that no current-run article re-fetches is preserved unchanged, original fetch
date included. -/
theorem write_json_frame (today : String) (stored : List NewsRecord)
    (feeds : List (String × List Article)) (a b : Article)
    (hab : a.link ≠ b.link)
    (ha : (digestArticles feeds).filter (fun x => x.link == a.link) = [a])
    (hb : (digestArticles feeds).filter (fun x => x.link == b.link) = [b])
    (hnd : (stored.map NewsRecord.link).Nodup) :
    recordOf today a ∈ write_json today (some stored) feeds ∧
    recordOf today b ∈ write_json today (some stored) feeds ∧
    recordOf today a ≠ recordOf today b ∧
    ∀ r ∈ stored, r.link ≠ "" →
      (∀ x ∈ digestArticles feeds, x.link ≠ r.link) →
      r ∈ write_json today (some stored) feeds := by
  have hwj : write_json today (some stored) feeds =
      sortDesc (dictValues (upsertAll today (loadExisting stored)
        (digestArticles feeds))) := rfl
  have hmema : ∀ (c : Article),
      (digestArticles feeds).filter (fun x => x.link == c.link) = [c] →
      recordOf today c ∈ write_json today (some stored) feeds := by
    intro c hc
    have hlook : dictLookup c.link (upsertAll today (loadExisting stored)
        (digestArticles feeds)) = some (recordOf today c) := by
      rw [dictLookup_upsertAll, hc]
      simp
    rw [hwj]
    exact (sortDesc_perm _).mem_iff.mpr (mem_values_of_dictLookup hlook)
  refine ⟨hmema a ha, hmema b hb, fun h => hab (congrArg NewsRecord.link h), ?_⟩
  intro r hr hne hnotin
  have hfl : stored.filter (fun x => x.link == r.link) = [r] := filter_link_eq_self hr hnd
  have hlook0 : dictLookup r.link (loadExisting stored) = some r := by
    rw [dictLookup_loadExisting hne stored, hfl]
    simp
  have harts : (digestArticles feeds).filter (fun x => x.link == r.link) = [] := by
    apply List.filter_eq_nil_iff.mpr
    intro x hx
    simp [hnotin x hx]
  have hlook : dictLookup r.link (upsertAll today (loadExisting stored)
      (digestArticles feeds)) = some r := by
    rw [dictLookup_upsertAll, harts]
    simpa using hlook0
  rw [hwj]
  exact (sortDesc_perm _).mem_iff.mpr (mem_values_of_dictLookup hlook)

/-- Witness for C4 (amended): two fresh articles with distinct links and one
unrelated stored record that is preserved with its original fetch date. -/
theorem write_json_frame_witness :
    recordOf "2025-01-02" { title := "A", link := "a" } ∈
      write_json "2025-01-02"
        (some [{ title := "Keep", link := "k", drawbacks := "d", fetched := "2024-01-01" }])
        [( "S", [{ title := "A", link := "a" }, { title := "B", link := "b" }])] ∧
    recordOf "2025-01-02" { title := "B", link := "b" } ∈
      write_json "2025-01-02"
        (some [{ title := "Keep", link := "k", drawbacks := "d", fetched := "2024-01-01" }])
        [( "S", [{ title := "A", link := "a" }, { title := "B", link := "b" }])] ∧
    recordOf "2025-01-02" ({ title := "A", link := "a" } : Article) ≠
      recordOf "2025-01-02" { title := "B", link := "b" } ∧
    ({ title := "Keep", link := "k", drawbacks := "d", fetched := "2024-01-01" } : NewsRecord) ∈
      write_json "2025-01-02"
        (some [{ title := "Keep", link := "k", drawbacks := "d", fetched := "2024-01-01" }])
        [( "S", [{ title := "A", link := "a" }, { title := "B", link := "b" }])] := by
  have h := write_json_frame "2025-01-02"
    [{ title := "Keep", link := "k", drawbacks := "d", fetched := "2024-01-01" }]
    [( "S", [{ title := "A", link := "a" }, { title := "B", link := "b" }])]
    { title := "A", link := "a" } { title := "B", link := "b" }
    (by decide) (by decide) (by decide) (by decide)
  exact ⟨h.1, h.2.1, h.2.2.1,
    h.2.2.2 { title := "Keep", link := "k", drawbacks := "d", fetched := "2024-01-01" }
      (by decide) (by decide) (by decide)⟩

/-- C6 (counterexample): a prior store holding a record with an empty link
loses that link on the next merge, so the set of links in the output is not a
superset of the prior link set. -/
theorem write_json_drops_empty_link :
    "" ∈ ([{ title := "T", link := "", drawbacks := "d", fetched := "2025-01-01" }] :
      List NewsRecord).map NewsRecord.link ∧
    "" ∉ (write_json "2025-01-02"
      (some [{ title := "T", link := "", drawbacks := "d", fetched := "2025-01-01" }])
      []).map NewsRecord.link := by
  refine ⟨by decide, by decide⟩

/-- C6 (amended): every non-empty link present in the prior record set is
still present after merging any digest; only records under a falsy link can
disappear, so the set of non-empty links grows monotonically. -/
theorem write_json_links_monotone (today : String) (stored : List NewsRecord)
    (feeds : List (String × List Article)) (L : String) (hL : L ≠ "")
    (hmem : ∃ r ∈ stored, r.link = L) :
    ∃ r2 ∈ write_json today (some stored) feeds, r2.link = L := by
  obtain ⟨r, hr, hrL⟩ := hmem
  obtain ⟨r0, hr0, hr0L⟩ := getLast?_filter_key NewsRecord.link hr hrL
  have hlook0 : dictLookup L (loadExisting stored) = some r0 := by
    rw [dictLookup_loadExisting hL stored, hr0]
  have hwj : write_json today (some stored) feeds =
      sortDesc (dictValues (upsertAll today (loadExisting stored)
        (digestArticles feeds))) := rfl
  cases hcase : ((digestArticles feeds).filter (fun x => x.link == L)).getLast? with
  | some c =>
    have hc : c.link = L := by
      have hcm := List.mem_of_mem_getLast? hcase
      have := (List.mem_filter.mp hcm).2
      simpa using this
    have hlook : dictLookup L (upsertAll today (loadExisting stored)
        (digestArticles feeds)) = some (recordOf today c) := by
      rw [dictLookup_upsertAll, hcase]
    refine ⟨recordOf today c, ?_, hc⟩
    rw [hwj]
    exact (sortDesc_perm _).mem_iff.mpr (mem_values_of_dictLookup hlook)
  | none =>
    have hlook : dictLookup L (upsertAll today (loadExisting stored)
        (digestArticles feeds)) = some r0 := by
      rw [dictLookup_upsertAll, hcase]
      exact hlook0
    refine ⟨r0, ?_, hr0L⟩
    rw [hwj]
    exact (sortDesc_perm _).mem_iff.mpr (mem_values_of_dictLookup hlook)

/-- Witness for C6 (amended): a stored non-empty link survives a run with an
empty digest. -/
theorem write_json_links_monotone_witness :
    ∃ r2 ∈ write_json "2025-01-02"
      (some [{ title := "K", link := "k", drawbacks := "d", fetched := "2024-01-01" }]) [],
      r2.link = "k" :=
  write_json_links_monotone "2025-01-02"
    [{ title := "K", link := "k", drawbacks := "d", fetched := "2024-01-01" }] [] "k"
    (by decide) (by decide)

/-- C5: the merged list is sorted in descending order of the fetch-date
string, the sort is stable (for every date it preserves the order of the
pre-sort list, which is the value list of the merged dictionary), and under
the data model's assumptions (unique truthy store links, fresh distinct digest
links) that pre-sort list is the existing store in order followed by the
digest's records in insertion order. -/
theorem write_json_sorted_stable (today : String) (stored : List NewsRecord)
    (feeds : List (String × List Article)) :
    (write_json today (some stored) feeds).Pairwise
      (fun x y => y.fetched.data ≤ x.fetched.data) ∧
    (∀ dt, (write_json today (some stored) feeds).filter (fun r => r.fetched == dt) =
      (dictValues (upsertAll today (loadExisting stored)
        (digestArticles feeds))).filter (fun r => r.fetched == dt)) ∧
    ((stored.map NewsRecord.link).Nodup → (∀ r ∈ stored, r.link ≠ "") →
      ((digestArticles feeds).map Article.link).Nodup →
      (∀ x ∈ digestArticles feeds, ∀ r ∈ stored, x.link ≠ r.link) →
      dictValues (upsertAll today (loadExisting stored) (digestArticles feeds)) =
        stored ++ (digestArticles feeds).map (recordOf today)) := by
  have hwj : write_json today (some stored) feeds =
      sortDesc (dictValues (upsertAll today (loadExisting stored)
        (digestArticles feeds))) := rfl
  refine ⟨?_, ?_, ?_⟩
  · rw [hwj]
    exact pairwise_sortDesc _
  · intro dt
    rw [hwj]
    exact filter_fetched_sortDesc dt _
  · intro hnd hne hand hfresh
    have hfresh0 : ∀ r ∈ stored, r.link ∉ dictKeys ([] : RecordDict) := by
      intro r _ hmem
      simp [dictKeys] at hmem
    have hload : loadExisting stored = stored.map (fun r => (r.link, r)) := by
      have h := loadFold_of_fresh stored [] hfresh0 hnd hne
      simpa [loadExisting] using h
    have hkeys : dictKeys (stored.map (fun r => (r.link, r))) =
        stored.map NewsRecord.link := by
      unfold dictKeys
      rw [List.map_map]
      rfl
    have hup : upsertAll today (loadExisting stored) (digestArticles feeds) =
        stored.map (fun r => (r.link, r)) ++
          (digestArticles feeds).map (fun x => (x.link, recordOf today x)) := by
      rw [hload]
      apply upsertAll_of_fresh
      · intro x hx hmem
        rw [hkeys] at hmem
        obtain ⟨r, hrs, hrl⟩ := List.mem_map.mp hmem
        exact hfresh x hx r hrs hrl.symm
      · exact hand
    rw [hup]
    unfold dictValues
    rw [List.map_append, List.map_map, List.map_map]
    have h1 : (Prod.snd ∘ fun r : NewsRecord => (r.link, r)) = id := rfl
    have h2 : (Prod.snd ∘ fun x : Article => (x.link, recordOf today x)) =
        recordOf today := rfl
    rw [h1, h2, List.map_id]

/-- Witness for C5: one old stored record and one fresh article; the merged
list is sorted descending, date-by-date stable, and the pre-sort list is the
store followed by the new record. -/
theorem write_json_sorted_stable_witness :
    (write_json "2025-06-01"
        (some [{ title := "Old", link := "L1", drawbacks := "d", fetched := "2025-01-01" }])
        [( "S", [{ title := "New", link := "L2", source := some "S" }])]).Pairwise
      (fun x y => y.fetched.data ≤ x.fetched.data) ∧
    (write_json "2025-06-01"
        (some [{ title := "Old", link := "L1", drawbacks := "d", fetched := "2025-01-01" }])
        [( "S", [{ title := "New", link := "L2", source := some "S" }])]).filter
      (fun r => r.fetched == "2025-01-01") =
      (dictValues (upsertAll "2025-06-01"
        (loadExisting [{ title := "Old", link := "L1", drawbacks := "d", fetched := "2025-01-01" }])
        (digestArticles [( "S", [{ title := "New", link := "L2", source := some "S" }])]))).filter
      (fun r => r.fetched == "2025-01-01") ∧
    dictValues (upsertAll "2025-06-01"
        (loadExisting [{ title := "Old", link := "L1", drawbacks := "d", fetched := "2025-01-01" }])
        (digestArticles [( "S", [{ title := "New", link := "L2", source := some "S" }])])) =
      [{ title := "Old", link := "L1", drawbacks := "d", fetched := "2025-01-01" }] ++
        (digestArticles [( "S", [{ title := "New", link := "L2", source := some "S" }])]).map
          (recordOf "2025-06-01") :=
  ⟨(write_json_sorted_stable "2025-06-01"
      [{ title := "Old", link := "L1", drawbacks := "d", fetched := "2025-01-01" }]
      [( "S", [{ title := "New", link := "L2", source := some "S" }])]).1,
   (write_json_sorted_stable "2025-06-01"
      [{ title := "Old", link := "L1", drawbacks := "d", fetched := "2025-01-01" }]
      [( "S", [{ title := "New", link := "L2", source := some "S" }])]).2.1 "2025-01-01",
   (write_json_sorted_stable "2025-06-01"
      [{ title := "Old", link := "L1", drawbacks := "d", fetched := "2025-01-01" }]
      [( "S", [{ title := "New", link := "L2", source := some "S" }])]).2.2
     (by decide) (by decide) (by decide) (by decide)⟩

/-- C7: a missing or unparseable store file makes the merge behave exactly as
with an empty store: the output equals the empty-store merge, consists only of
records computed from the current run's digest articles, and carries every
digest link. -/
theorem write_json_corrupt_store (today : String)
    (feeds : List (String × List Article)) :
    write_json today none feeds = write_json today (some []) feeds ∧
    (∀ r ∈ write_json today none feeds,
      ∃ a ∈ digestArticles feeds, r = recordOf today a) ∧
    (∀ a ∈ digestArticles feeds,
      ∃ r ∈ write_json today none feeds, r.link = a.link) := by
  have hwj : write_json today none feeds =
      sortDesc (dictValues (upsertAll today [] (digestArticles feeds))) := rfl
  refine ⟨rfl, ?_, ?_⟩
  · intro r hr
    rw [hwj] at hr
    have hv := (sortDesc_perm _).mem_iff.mp hr
    obtain ⟨p, hp, hpr⟩ := List.mem_map.mp hv
    rcases mem_upsertAll today (digestArticles feeds) [] p hp with h0 | hm
    · simp at h0
    · obtain ⟨c, hc, hpc⟩ := hm
      exact ⟨c, hc, by rw [← hpr, hpc]⟩
  · intro a ha
    obtain ⟨c, hc, hcL⟩ := getLast?_filter_key Article.link ha rfl
    have hlook : dictLookup a.link (upsertAll today [] (digestArticles feeds)) =
        some (recordOf today c) := by
      rw [dictLookup_upsertAll, hc]
    refine ⟨recordOf today c, ?_, hcL⟩
    rw [hwj]
    exact (sortDesc_perm _).mem_iff.mpr (mem_values_of_dictLookup hlook)

/-- Witness for C7: with a corrupt (or absent) store, the single article of
the run is the only source of output records. -/
theorem write_json_corrupt_store_witness :
    write_json "2025-01-02" none
        [( "S", [{ title := "A", link := "a", source := some "S" }])] =
      write_json "2025-01-02" (some [])
        [( "S", [{ title := "A", link := "a", source := some "S" }])] ∧
    (∃ c ∈ digestArticles [( "S", [{ title := "A", link := "a", source := some "S" }])],
      recordOf "2025-01-02" { title := "A", link := "a", source := some "S" } =
        recordOf "2025-01-02" c) ∧
    ∃ r ∈ write_json "2025-01-02" none
        [( "S", [{ title := "A", link := "a", source := some "S" }])],
      r.link = ({ title := "A", link := "a", source := some "S" } : Article).link :=
  ⟨(write_json_corrupt_store "2025-01-02"
      [( "S", [{ title := "A", link := "a", source := some "S" }])]).1,
   (write_json_corrupt_store "2025-01-02"
      [( "S", [{ title := "A", link := "a", source := some "S" }])]).2.1
     (recordOf "2025-01-02" { title := "A", link := "a", source := some "S" }) (by decide),
   (write_json_corrupt_store "2025-01-02"
      [( "S", [{ title := "A", link := "a", source := some "S" }])]).2.2
     { title := "A", link := "a", source := some "S" } (by decide)⟩

/-- C10: every existing-store record with a falsy link is silently dropped by
the merge, every empty-link current-run article maps to the same dictionary
key, and at most one empty-link record — the one from the last empty-link
article processed — survives in the output. -/
theorem write_json_empty_link (today : String) (stored : List NewsRecord)
    (feeds : List (String × List Article)) :
    (write_json today (some stored) feeds).filter (fun r => r.link == "") =
      (match ((digestArticles feeds).filter (fun a => a.link == "")).getLast? with
       | some a => [recordOf today a]
       | none => []) ∧
    ((write_json today (some stored) feeds).filter (fun r => r.link == "")).length ≤ 1 := by
  have hsi := storeInv_loadExisting stored
  have hmi : mergeInv (upsertAll today (loadExisting stored) (digestArticles feeds)) :=
    mergeInv_upsertAll today (digestArticles feeds) (loadExisting stored) ⟨hsi.1, hsi.2.1⟩
  have hwj : write_json today (some stored) feeds =
      sortDesc (dictValues (upsertAll today (loadExisting stored)
        (digestArticles feeds))) := rfl
  have hlook0 : dictLookup "" (loadExisting stored) = none := by
    apply dictLookup_eq_none
    intro hmem
    exact hsi.2.2 "" hmem rfl
  have hfv : (dictValues (upsertAll today (loadExisting stored)
      (digestArticles feeds))).filter (fun r => r.link == "") =
      (match ((digestArticles feeds).filter (fun a => a.link == "")).getLast? with
       | some a => [recordOf today a]
       | none => []) := by
    rw [values_filter_eq_lookup hmi.1 hmi.2, dictLookup_upsertAll]
    cases ((digestArticles feeds).filter (fun a => a.link == "")).getLast? with
    | some a => rfl
    | none => rw [hlook0]
  have hmain : (write_json today (some stored) feeds).filter (fun r => r.link == "") =
      (match ((digestArticles feeds).filter (fun a => a.link == "")).getLast? with
       | some a => [recordOf today a]
       | none => []) := by
    have hperm := (sortDesc_perm (dictValues (upsertAll today (loadExisting stored)
      (digestArticles feeds)))).filter (fun r => r.link == "")
    rw [hfv] at hperm
    rw [hwj]
    cases hcase : ((digestArticles feeds).filter (fun a => a.link == "")).getLast? with
    | some a =>
      rw [hcase] at hperm
      exact List.Perm.eq_singleton hperm
    | none =>
      rw [hcase] at hperm
      exact List.Perm.eq_nil hperm
  refine ⟨hmain, ?_⟩
  rw [hmain]
  cases ((digestArticles feeds).filter (fun a => a.link == "")).getLast? <;> simp

/-! ### Claims about the summarizer and the notifier -/

/-- C8 (counterexample): the fallback splits sentences only at spaces, not at
every whitespace character: on "Alpha.\nBeta. Gamma. Delta." the code keeps
"Alpha.\nBeta." as a single sentence and so returns a summary that still
contains the third whitespace-delimited sentence "Gamma.", unlike the first
two sentences under the specification's whitespace boundary. -/
theorem extract_summary_space_only_boundary :
    extract_summary { summary := some "Alpha.\nBeta. Gamma. Delta." } =
      some "Alpha.\nBeta. Gamma." ∧
    splitSentencesSpecWhitespace
      (strip_html (pyJoin " "
        (entryParts { summary := some "Alpha.\nBeta. Gamma. Delta." }))) =
      [ "Alpha.", "Beta.", "Gamma.", "Delta."] ∧
    extract_summary { summary := some "Alpha.\nBeta. Gamma. Delta." } ≠
      some (pyStrip (pyJoin " "
        ((splitSentencesSpecWhitespace
          (strip_html (pyJoin " "
            (entryParts { summary := some "Alpha.\nBeta. Gamma. Delta." })))).take 2))) := by
  refine ⟨by decide, by decide, by decide⟩

/-- C8 (amended): an entry none of whose summary/description/content text
fields holds a truthy value yields no summary; an entry with at least one such
field yields the first two sentences of the HTML-stripped, entity-unescaped
concatenation of those fields, re-joined with single spaces, where a sentence
boundary is a period, exclamation mark or question mark followed by one or
more spaces (a space character only, not every kind of whitespace). -/
theorem extract_summary_first_two_sentences (e : Entry) :
    (entryParts e = [] → extract_summary e = none) ∧
    (entryParts e ≠ [] →
      extract_summary e =
        some (pyStrip (pyJoin " "
          ((splitSentences (strip_html (pyJoin " " (entryParts e)))).take 2)))) := by
  constructor
  · intro h
    unfold extract_summary
    simp [h]
  · intro h
    unfold extract_summary llm_summarize
    simp [h]

/-- Witness for C8 (amended): an entry with no truthy text fields, and one
with a three-sentence summary. -/
theorem extract_summary_first_two_sentences_witness :
    extract_summary { summary := some "", content := [none, some ""] } = none ∧
    extract_summary { description := some "One. Two. Three." } =
      some (pyStrip (pyJoin " "
        ((splitSentences (strip_html (pyJoin " "
          (entryParts { description := some "One. Two. Three." })))).take 2))) :=
  ⟨(extract_summary_first_two_sentences
      { summary := some "", content := [none, some ""] }).1 (by decide),
   (extract_summary_first_two_sentences
      { description := some "One. Two. Three." }).2 (by decide)⟩

/-- C9: when any of the required mail variables (host, username, password,
sender, recipient list) is absent or empty — in particular when `SMTP_HOST` is
unset — `send_email` raises a configuration error and produces no trace of
network actions, so no connection is ever opened. -/
theorem send_email_fails_fast (env : EnvMap) (digestText : String)
    (h : pyTruthy (env "SMTP_HOST") = false ∨ pyTruthy (env "SMTP_USER") = false ∨
      pyTruthy (env "SMTP_PASS") = false ∨ pyTruthy (mailSender env) = false ∨
      pyTruthy (env "EMAIL_TO") = false) :
    ∃ msg, send_email env digestText = Except.error msg := by
  unfold send_email
  cases hp : pyInt ((env "SMTP_PORT").getD "587") with
  | none => exact ⟨_, rfl⟩
  | some port =>
    have hcond : (pyTruthy (env "SMTP_HOST") && pyTruthy (env "SMTP_USER") &&
        pyTruthy (env "SMTP_PASS") && pyTruthy (mailSender env) &&
        pyTruthy (env "EMAIL_TO")) = false := by
      rcases h with h | h | h | h | h <;> simp [h]
    exact ⟨"Missing SMTP or email configuration environment variables", by simp [hcond]⟩

/-- Witness for C9: an empty environment (in particular `SMTP_HOST` unset)
makes `send_email` fail before any network action. -/
theorem send_email_fails_fast_witness :
    ∃ msg, send_email (fun _ => none) "digest" = Except.error msg :=
  send_email_fails_fast (fun _ => none) "digest" (Or.inl (by decide))
